import Mathlib

/-!
Verification of the CPP repository: a collection of short, independent C++
language-feature demonstration programs.  Each C++ snippet is shallowly
embedded as Lean definitions; output to the standard output stream is
modelled as a `List String` of the written chunks; possibly-failing
allocations are modelled with an allocation oracle and `Except`.
-/

/- ### Templates example (src/unnamed/part_002, first program)

`arity`, `getLarger`, and the variadic `sum` from the templates program. -/

namespace Templates

namespace arity

/-- `template <typename... T> struct arity { constexpr static int value = sizeof...(T); };`
The parameter pack is embedded as a list of types; `sizeof...(T)` is its length. -/
def value (Ts : List Type) : Nat := Ts.length

end arity

/-- Which of the two reference parameters a `T&`-returning function hands back. -/
inductive Ref where
  | first
  | second
deriving DecidableEq, Repr

/-- `template <typename T> T& getLarger(T& a, T& b) { return (a > b) ? a : b; }`
The returned reference is embedded as a selector telling which argument it
aliases; the comparison `a > b` is the type's `>` as a Boolean test. -/
def getLarger (gt : α → α → Bool) (a b : α) : Ref :=
  if gt a b then .first else .second

/-- Assigning a value through a reference to one of the two variables `a`, `b`:
returns the resulting values of `(a, b)`. -/
def assignThrough (r : Ref) (v : α) (a b : α) : α × α :=
  match r with
  | .first => (v, b)
  | .second => (a, v)

/-- `sum(first, others...)`: builds `{firstArgument, otherArguments...}` and
runs `std::accumulate(values.begin(), values.end(), First{0})`, a left fold
starting from zero. -/
def sum (firstArgument : Int) (otherArguments : List Int) : Int :=
  (firstArgument :: otherArguments).foldl (fun acc x => acc + x) 0

end Templates

/- ### CRTP shape example (src/unnamed/part_000, CRTP version)

The base template `Shape<Derived>` dispatches `draw` to the derived class's
`drawImpl` at compile time; the static dispatch is embedded as a type class. -/

namespace CRTP

structure Circle where

structure Square where

def Circle.drawImpl (_ : Circle) : String := "Drawing Circle\n"

def Square.drawImpl (_ : Square) : String := "Drawing Square\n"

/-- CRTP base `template <typename Derived> class Shape`: `draw` forwards to the
derived type's `drawImpl`. -/
class Shape (α : Type) where
  drawImpl : α → String

instance : Shape Circle := ⟨Circle.drawImpl⟩

instance : Shape Square := ⟨Square.drawImpl⟩

/-- `void draw() const { static_cast<const Derived*>(this)->drawImpl(); }` -/
def Shape.draw [Shape α] (shape : α) : String := Shape.drawImpl shape

/-- `template <typename ShapeType> void render(const ShapeType& shape) { shape.draw(); }`
Returns the chunk written to the output stream. -/
def render [Shape α] (shape : α) : String := Shape.draw shape

/-- The CRTP example's `main`: `render(c); render(s);` with `Circle c; Square s;`.
The value is the sequence of chunks written to the standard output stream. -/
def crtpMain : List String := [render (Circle.mk), render (Square.mk)]

end CRTP

/- ### Initializer-list sum (src/Smart pointers/unique_ptr.cpp, "Initializer lists")

`int sum(const std::initializer_list<int>& list) { int total = 0; for (auto& e
: list) total += e; return total; }` -/

namespace InitList

def sum (list : List Int) : Int :=
  list.foldl (fun total e => total + e) 0

end InitList

/- ### Move semantics example (src/unnamed/part_004)

`MovableClass` has no data members; every member function only writes a line
to the output stream.  Objects are embedded as the (fieldless) structure, and
references are identified by which operand they alias. -/

structure MovableClass where

/-- Move constructor `MovableClass(MovableClass&& other)`: constructs a new
object and performs no read or write of object data.  Returns the pair
(constructed object, state of `other` afterwards). -/
def MovableClass.moveCtor (other : MovableClass) : MovableClass × MovableClass :=
  (MovableClass.mk, other)

/-- Move assignment `operator=(MovableClass&& other)`: `return *this;`.
Given the identities (addresses) of the left- and right-hand operands it
returns the identity of the object the returned reference aliases. -/
def MovableClass.moveAssignRef (lhsId _rhsId : Nat) : Nat := lhsId

/-- Output of `move_constructor()`: two locals, one move construction, two
destructor calls on scope exit. -/
def move_constructor : List String :=
  ["Constructor\n", "Move Constructor\n", "Destructor\n", "Destructor\n"]

/-- Output of `move_assignment()`: two locals, one move assignment, two
destructor calls on scope exit. -/
def move_assignment : List String :=
  ["Constructor\n", "Constructor\n", "Move Assignment Operator\n",
   "Destructor\n", "Destructor\n"]

/-- `main` of the move-semantics example: `move_constructor(); move_assignment();`.
Its whole observable behaviour is this sequence of chunks on standard output. -/
def moveSemanticsMain : List String := move_constructor ++ move_assignment

/- ### make_unique example (src/Smart pointers/make_example.cpp)

`displayValue(10)` creates a `unique_ptr<MyClass>` and calls `display()`. -/

structure MyClass where
  m_value : Int
deriving DecidableEq, Repr

/-- `void display() const { std::cout << "Value: " << m_value << std::endl; }` -/
def MyClass.display (c : MyClass) : String := "Value: " ++ toString c.m_value ++ "\n"

/-- `void displayValue(int value)`: constructs `MyClass(value)` behind a
`unique_ptr` and calls `display` on it; the chunk written to standard output. -/
def displayValue (value : Int) : List String := [(MyClass.mk value).display]

/-- `main` of make_example.cpp: `displayValue(10);`.  Takes no arguments and
its only external effect is this output. -/
def makeExampleMain : List String := displayValue 10

/- ### unique_ptr example (src/Smart pointers/unique_ptr.cpp, first program)

`useResource()` makes a `unique_ptr<Resource>`; the constructor and the
destructor (run on scope exit) each write one line. -/

def useResource : List String := ["Resource acquired\n", "Resource released\n"]

/-- `main` of the unique_ptr example: `useResource();`. -/
def uniquePtrMain : List String := useResource

/- ### Error propagation model (C6)

None of the programs contains a `try`/`catch`; a heap allocation (`new`,
`make_unique`, `emplace_back`) is the only operation that can fail at run
time, by throwing `std::bad_alloc`.  A run is therefore embedded as a
computation over an allocation oracle (`Nat → Bool`, whether the i-th
allocation succeeds); a thrown exception, caught nowhere, reaches the top of
`main` as an uncaught `Fault` terminating the process. -/

inductive Fault where
  | badAlloc
deriving DecidableEq, Repr

/-- `main` of the shared_ptr example (src/unnamed/part_003):
`shared_ptr<Resource> ptr1{new Resource()};` performs one allocation; if it
fails the `bad_alloc` propagates uncaught out of `main`, otherwise the
`Resource` constructor line and, on scope exit, the destructor line are
written. -/
def sharedPtrMain (alloc : Nat → Bool) : Except Fault (List String) :=
  if alloc 0 then .ok ["Resource acquired\n", "Resource released\n"]
  else .error .badAlloc

/-- One `myVector.emplace_back(x, y)` call (src/unnamed/part_001): allocates
storage for the new element in the vector, then runs the `MyClass`
constructor which writes one line.  `n` is the index of this allocation in
the run. -/
def emplaceBack (alloc : Nat → Bool) (n : Nat) (x : Int) (y : String)
    (out : List String) : Except Fault (List String) :=
  if alloc n then
    .ok (out ++ ["Constructed MyClass(" ++ toString x ++ ", " ++ y ++ ")\n"])
  else .error .badAlloc

/-- `main` of the emplace_back example (src/unnamed/part_001): three
`emplace_back` calls in sequence; there is no handler, so the first failing
allocation aborts the run with an uncaught fault. -/
def emplaceMain (alloc : Nat → Bool) : Except Fault (List String) :=
  match emplaceBack alloc 0 1 "Apple" [] with
  | .error f => .error f
  | .ok out1 =>
    match emplaceBack alloc 1 2 "Banana" out1 with
    | .error f => .error f
    | .ok out2 => emplaceBack alloc 2 3 "Cherry" out2

/-- Full output of the emplace_back example when every allocation succeeds. -/
def emplaceFullOutput : List String :=
  ["Constructed MyClass(1, Apple)\n", "Constructed MyClass(2, Banana)\n",
   "Constructed MyClass(3, Cherry)\n"]

/- ### Threads example (src/unnamed/part_002, third program)

`main` spawns two worker threads (a lambda and `someThreadFunction`), each of
which calls `ThreadSafePrinter::printMessage` on the shared printer, then
joins both.  The program is embedded as a small-step interleaving semantics:
`stepFn` gives the effect of one atomic action of one thread, `run` executes a
whole interleaved trace. -/

namespace Threads

/-- The atomic actions of `ThreadSafePrinter::printMessage`. -/
inductive Action where
  | format
  | acquire
  | write
  | release
deriving DecidableEq, Repr

/-- The body of `printMessage` in program order: build the message in the
thread-private `ostringstream` (no lock held), construct the
`lock_guard` (acquire `coutMutex`), perform the single write of `oss.str()`
to `std::cout`, and on scope exit let the `lock_guard` destructor release the
mutex. -/
def printMessageBody : List Action := [.format, .acquire, .write, .release]

/-- The message each worker passes to `printMessage`; thread `false` is the
lambda (first `emplace_back`), thread `true` is `someThreadFunction`. -/
def message (t : Bool) : String :=
  if t then "Hello from someThreadFunction()!" else "Hello from the lambda function!"

/-- The string `printMessage` builds in the private `ostringstream`:
`oss << "Message: \"" << message << "\" from thread: " << get_id() << endl`.
`tid t` is the OS-assigned textual id of worker `t`. -/
def formatted (tid : Bool → String) (t : Bool) : String :=
  "Message: \"" ++ message t ++ "\" from thread: " ++ tid t ++ "\n"

/-- Global state of the threads example.  `mainPc`: 0 before the first
`emplace_back`, 1 after it, 2 after the second, 3 after `join` of the first
worker, 4 after `join` of the second (end of `main`).  `pcF`/`pcT` are the
workers' positions in `printMessageBody` (4 = returned).  `bufF`/`bufT` are
the thread-private `ostringstream` contents, `holder` the owner of
`coutMutex`, `output` the chunks written to `std::cout`. -/
structure PState where
  mainPc : Nat
  pcF : Nat
  pcT : Nat
  bufF : Option String
  bufT : Option String
  holder : Option Bool
  output : List String
deriving DecidableEq, Repr

def PState.pc (s : PState) (t : Bool) : Nat := if t then s.pcT else s.pcF

def PState.buf (s : PState) (t : Bool) : Option String := if t then s.bufT else s.bufF

def PState.setPc (s : PState) (t : Bool) (n : Nat) : PState :=
  if t then { s with pcT := n } else { s with pcF := n }

def PState.setBuf (s : PState) (t : Bool) (b : Option String) : PState :=
  if t then { s with bufT := b } else { s with bufF := b }

/-- Initial state: `main` about to spawn, no worker started, mutex free,
nothing written. -/
def initState : PState := ⟨0, 0, 0, none, none, none, []⟩

/-- Events: `main` spawning a worker (`emplace_back` of the thread), a worker
performing one action of `printMessage`, or `main` joining a worker. -/
inductive Ev where
  | spawn (t : Bool)
  | act (t : Bool) (a : Action)
  | join (t : Bool)
deriving DecidableEq, Repr

/-- Worker `t` may run only after `main` has spawned it. -/
def spawned (s : PState) (t : Bool) : Prop :=
  if t then 2 ≤ s.mainPc else 1 ≤ s.mainPc

instance (s : PState) (t : Bool) : Decidable (spawned s t) := by
  unfold spawned; exact inferInstance

/-- One atomic step of the interleaved execution.  `none` means the event is
not enabled in state `s` (in particular, `join t` is not enabled — `main`
stays blocked — until worker `t` has completed, and `acquire` is not enabled
while the mutex is held). -/
def stepFn (tid : Bool → String) (s : PState) (e : Ev) : Option PState :=
  match e with
  | .spawn false => if s.mainPc = 0 then some { s with mainPc := 1 } else none
  | .spawn true => if s.mainPc = 1 then some { s with mainPc := 2 } else none
  | .join false => if s.mainPc = 2 ∧ s.pcF = 4 then some { s with mainPc := 3 } else none
  | .join true => if s.mainPc = 3 ∧ s.pcT = 4 then some { s with mainPc := 4 } else none
  | .act t a =>
    if spawned s t then
      match a with
      | .format =>
        if s.pc t = 0 then some ((s.setBuf t (some (formatted tid t))).setPc t 1) else none
      | .acquire =>
        if s.pc t = 1 ∧ s.holder = none then some (({ s with holder := some t }).setPc t 2)
        else none
      | .write =>
        if s.pc t = 2 then
          some (({ s with output := s.output ++ [(s.buf t).getD ""] }).setPc t 3)
        else none
      | .release =>
        if s.pc t = 3 ∧ s.holder = some t then some (({ s with holder := none }).setPc t 4)
        else none
    else none

/-- Run a whole interleaved trace from state `s`. -/
def run (tid : Bool → String) (s : PState) (tr : List Ev) : Option PState :=
  match tr with
  | [] => some s
  | e :: rest =>
    match stepFn tid s e with
    | some s2 => run tid s2 rest
    | none => none

/-- The subsequence of `printMessage` actions performed by worker `t` in a
trace. -/
def proj (t : Bool) (tr : List Ev) : List Action :=
  tr.filterMap (fun e =>
    match e with
    | .act u a => if u = t then some a else none
    | _ => none)

/-- Reachability invariant: the mutex is held by a worker exactly while that
worker is between its `acquire` and its `release`; a worker past `format` has
its formatted message in its private buffer; `main` past a `join` implies the
joined worker has completed. -/
def Inv (tid : Bool → String) (s : PState) : Prop :=
  (s.holder = some false ↔ (s.pcF = 2 ∨ s.pcF = 3)) ∧
  (s.holder = some true ↔ (s.pcT = 2 ∨ s.pcT = 3)) ∧
  (1 ≤ s.pcF → s.bufF = some (formatted tid false)) ∧
  (1 ≤ s.pcT → s.bufT = some (formatted tid true)) ∧
  (3 ≤ s.mainPc → s.pcF = 4) ∧
  (4 ≤ s.mainPc → s.pcT = 4)

end Threads

namespace Threads

/-- A concrete choice of textual thread ids, for exercising the model. -/
def tidDemo : Bool → String := fun t => if t then "140001" else "140000"

/-- A complete interleaved execution of the threads example: `main` spawns
both workers, the lambda worker runs `printMessage` to completion, then the
`someThreadFunction` worker does, then `main` joins both. -/
def demoTrace : List Ev :=
  [.spawn false, .spawn true,
   .act false .format, .act false .acquire, .act false .write, .act false .release,
   .act true .format, .act true .acquire, .act true .write, .act true .release,
   .join false, .join true]

/-- The state `demoTrace` ends in: `main` returned, both workers completed,
mutex free, both messages written. -/
def demoFinal : PState :=
  ⟨4, 4, 4, some (formatted tidDemo false), some (formatted tidDemo true), none,
   [formatted tidDemo false, formatted tidDemo true]⟩

end Threads


/-! ## Theorems -/

namespace Threads

theorem inv_init (tid : Bool → String) : Inv tid initState := by
  simp [Inv, initState]

theorem stepFn_preserves_inv {tid : Bool → String} {s s2 : PState} {e : Ev}
    (hinv : Inv tid s) (h : stepFn tid s e = some s2) : Inv tid s2 := by
  obtain ⟨h1, h2, h3, h4, h5, h6⟩ := hinv
  cases e with
  | spawn t =>
    cases t <;>
      simp only [stepFn, Option.ite_none_right_eq_some, Option.some.injEq] at h
    · obtain ⟨hc, rfl⟩ := h
      exact ⟨h1, h2, h3, h4, by intro hx; exact absurd hx (by simp),
        by intro hx; exact absurd hx (by simp)⟩
    · obtain ⟨hc, rfl⟩ := h
      exact ⟨h1, h2, h3, h4, by intro hx; exact absurd hx (by simp),
        by intro hx; exact absurd hx (by simp)⟩
  | join t =>
    cases t <;>
      simp only [stepFn, Option.ite_none_right_eq_some, Option.some.injEq] at h
    · obtain ⟨⟨hc1, hc2⟩, rfl⟩ := h
      exact ⟨h1, h2, h3, h4, fun _ => hc2, by intro hx; exact absurd hx (by simp [hc1])⟩
    · obtain ⟨⟨hc1, hc2⟩, rfl⟩ := h
      exact ⟨h1, h2, h3, h4, fun _ => h5 (by omega), fun _ => hc2⟩
  | act t a =>
    cases t <;> cases a <;>
      simp only [stepFn, spawned, PState.pc, PState.buf, PState.setPc, PState.setBuf,
        Option.ite_none_right_eq_some, Option.some.injEq, if_true, if_false,
        Bool.false_eq_true, Bool.true_eq_false, ite_false, ite_true] at h
    -- worker false, format
    · obtain ⟨hsp, hc, rfl⟩ := h
      refine ⟨?_, h2, fun _ => rfl, h4, ?_, h6⟩
      · simpa [hc] using h1
      · intro hx; have := h5 hx; omega
    -- worker false, acquire
    · obtain ⟨hsp, ⟨hc1, hc2⟩, rfl⟩ := h
      refine ⟨by simp, ?_, fun _ => h3 (by omega), h4, ?_, h6⟩
      · constructor
        · intro hx; exact absurd hx (by simp)
        · intro hx; exact absurd (h2.mpr hx) (by simp [hc2])
      · intro hx; have := h5 hx; omega
    -- worker false, write
    · obtain ⟨hsp, hc, rfl⟩ := h
      refine ⟨by simpa [hc] using h1, ?_, fun _ => h3 (by omega), h4, ?_, h6⟩
      · constructor
        · intro hx; exact (h2.mp hx).elim (fun hy => .inl hy) (fun hy => .inr hy)
        · intro hx; exact h2.mpr hx
      · intro hx; have := h5 hx; omega
    -- worker false, release
    · obtain ⟨hsp, ⟨hc1, hc2⟩, rfl⟩ := h
      refine ⟨by simp, ?_, fun _ => h3 (by omega), h4, ?_, h6⟩
      · constructor
        · intro hx; exact absurd hx (by simp)
        · intro hx
          have := h2.mpr hx
          rw [hc2] at this
          exact absurd (Option.some.inj this) (by simp)
      · intro hx; have := h5 hx; omega
    -- worker true, format
    · obtain ⟨hsp, hc, rfl⟩ := h
      refine ⟨h1, ?_, h3, fun _ => rfl, h5, ?_⟩
      · simpa [hc] using h2
      · intro hx; have := h6 hx; omega
    -- worker true, acquire
    · obtain ⟨hsp, ⟨hc1, hc2⟩, rfl⟩ := h
      refine ⟨?_, by simp, h3, fun _ => h4 (by omega), h5, ?_⟩
      · constructor
        · intro hx; exact absurd hx (by simp)
        · intro hx; exact absurd (h1.mpr hx) (by simp [hc2])
      · intro hx; have := h6 hx; omega
    -- worker true, write
    · obtain ⟨hsp, hc, rfl⟩ := h
      refine ⟨?_, by simpa [hc] using h2, h3, fun _ => h4 (by omega), h5, ?_⟩
      · constructor
        · intro hx; exact (h1.mp hx).elim (fun hy => .inl hy) (fun hy => .inr hy)
        · intro hx; exact h1.mpr hx
      · intro hx; have := h6 hx; omega
    -- worker true, release
    · obtain ⟨hsp, ⟨hc1, hc2⟩, rfl⟩ := h
      refine ⟨?_, by simp, h3, fun _ => h4 (by omega), h5, ?_⟩
      · constructor
        · intro hx; exact absurd hx (by simp)
        · intro hx
          have := h1.mpr hx
          rw [hc2] at this
          exact absurd (Option.some.inj this) (by simp)
      · intro hx; have := h6 hx; omega

theorem run_inv {tid : Bool → String} {s s2 : PState} {tr : List Ev}
    (hinv : Inv tid s) (h : run tid s tr = some s2) : Inv tid s2 := by
  induction tr generalizing s with
  | nil => simp [run] at h; exact h ▸ hinv
  | cons e rest ih =>
    simp only [run] at h
    cases hs : stepFn tid s e with
    | none => rw [hs] at h; exact absurd h (by simp)
    | some s1 =>
      rw [hs] at h
      exact ih (stepFn_preserves_inv hinv hs) h

theorem run_snoc (tid : Bool → String) (s : PState) (tr : List Ev) (e : Ev) :
    run tid s (tr ++ [e]) = (run tid s tr).bind (fun s1 => stepFn tid s1 e) := by
  induction tr generalizing s with
  | nil =>
    cases hs : stepFn tid s e <;> simp [run, hs]
  | cons e2 rest ih =>
    cases hs : stepFn tid s e2 <;> simp [run, hs, ih]

theorem proj_append (t : Bool) (tr1 tr2 : List Ev) :
    proj t (tr1 ++ tr2) = proj t tr1 ++ proj t tr2 := by
  simp [proj]

end Threads

namespace Threads

theorem run_proj {tid : Bool → String} {tr : List Ev} {s : PState}
    (h : run tid initState tr = some s) :
    proj false tr = printMessageBody.take s.pcF ∧
    proj true tr = printMessageBody.take s.pcT := by
  induction tr using List.reverseRecOn generalizing s with
  | nil =>
    simp only [run, Option.some.injEq] at h
    subst h
    exact ⟨rfl, rfl⟩
  | append_singleton tr e ih =>
    rw [run_snoc] at h
    cases hs1 : run tid initState tr with
    | none => rw [hs1] at h; exact absurd h (by simp)
    | some s1 =>
      rw [hs1] at h
      simp only [Option.some_bind] at h
      have hp := ih hs1
      cases e with
      | spawn u =>
        cases u <;>
          simp only [stepFn, Option.ite_none_right_eq_some, Option.some.injEq] at h <;>
          obtain ⟨hc, rfl⟩ := h <;>
          exact ⟨by rw [proj_append, hp.1]; simp [proj],
            by rw [proj_append, hp.2]; simp [proj]⟩
      | join u =>
        cases u <;>
          simp only [stepFn, Option.ite_none_right_eq_some, Option.some.injEq] at h <;>
          obtain ⟨hc, rfl⟩ := h <;>
          exact ⟨by rw [proj_append, hp.1]; simp [proj],
            by rw [proj_append, hp.2]; simp [proj]⟩
      | act u a =>
        cases u <;> cases a <;>
          simp only [stepFn, spawned, PState.pc, PState.setPc, PState.setBuf,
            Option.ite_none_right_eq_some, Option.some.injEq, if_true, if_false,
            Bool.false_eq_true, Bool.true_eq_false, ite_false, ite_true] at h
        · obtain ⟨hsp, hc, rfl⟩ := h
          exact ⟨by rw [proj_append, hp.1, hc]; rfl,
            by rw [proj_append, hp.2]; simp [proj]⟩
        · obtain ⟨hsp, ⟨hc1, hc2⟩, rfl⟩ := h
          exact ⟨by rw [proj_append, hp.1, hc1]; rfl,
            by rw [proj_append, hp.2]; simp [proj]⟩
        · obtain ⟨hsp, hc, rfl⟩ := h
          exact ⟨by rw [proj_append, hp.1, hc]; rfl,
            by rw [proj_append, hp.2]; simp [proj]⟩
        · obtain ⟨hsp, ⟨hc1, hc2⟩, rfl⟩ := h
          exact ⟨by rw [proj_append, hp.1, hc1]; rfl,
            by rw [proj_append, hp.2]; simp [proj]⟩
        · obtain ⟨hsp, hc, rfl⟩ := h
          exact ⟨by rw [proj_append, hp.1]; simp [proj],
            by rw [proj_append, hp.2, hc]; rfl⟩
        · obtain ⟨hsp, ⟨hc1, hc2⟩, rfl⟩ := h
          exact ⟨by rw [proj_append, hp.1]; simp [proj],
            by rw [proj_append, hp.2, hc1]; rfl⟩
        · obtain ⟨hsp, hc, rfl⟩ := h
          exact ⟨by rw [proj_append, hp.1]; simp [proj],
            by rw [proj_append, hp.2, hc]; rfl⟩
        · obtain ⟨hsp, ⟨hc1, hc2⟩, rfl⟩ := h
          exact ⟨by rw [proj_append, hp.1]; simp [proj],
            by rw [proj_append, hp.2, hc1]; rfl⟩

theorem count_write_take (n : Nat) :
    ((printMessageBody.take n).count Action.write) ≤ 1 := by
  have hsub : (printMessageBody.take n).Sublist printMessageBody := List.take_sublist n _
  have h1 := hsub.count_le Action.write
  have h2 : printMessageBody.count Action.write = 1 := by decide
  omega

end Threads

namespace Threads

/-- **C1.** Every call to `ThreadSafePrinter::printMessage` first formats the
complete message into a thread-private buffer while holding no lock and
touching no shared mutable state, then acquires the mutex, performs exactly
one write of the buffered string to the shared output stream while holding
it, and releases the mutex on scope exit, so writes by concurrent callers
are mutually excluded, with no queuing, no backpressure and no retry.
Formally, in every reachable state of the interleaved execution: each
worker's actions so far are a prefix of format–acquire–write–release; an
enabled `format` step runs with its thread holding no lock and leaves the
mutex, the shared output stream and the other thread's buffer untouched; an
enabled `write` step runs with the mutex held by the writer and appends
exactly the writer's buffered string to the output; the two workers are
never simultaneously between `acquire` and `release`; an enabled `release`
step frees the mutex; and each worker writes at most once, exactly once if
its call has completed. -/
theorem printMessage_spec (tid : Bool → String) (tr : List Ev) (s : PState)
    (h : run tid initState tr = some s) :
    (proj false tr = printMessageBody.take s.pcF ∧
     proj true tr = printMessageBody.take s.pcT) ∧
    (∀ t s2, stepFn tid s (.act t .format) = some s2 →
      s.holder ≠ some t ∧ s2.holder = s.holder ∧ s2.output = s.output ∧
      s2.buf (!t) = s.buf (!t)) ∧
    (∀ t s2, stepFn tid s (.act t .write) = some s2 →
      s.holder = some t ∧ s2.output = s.output ++ [formatted tid t]) ∧
    (¬((s.pcF = 2 ∨ s.pcF = 3) ∧ (s.pcT = 2 ∨ s.pcT = 3))) ∧
    (∀ t s2, stepFn tid s (.act t .release) = some s2 →
      s.holder = some t ∧ s2.holder = none) ∧
    ((proj false tr).count .write ≤ 1 ∧ (proj true tr).count .write ≤ 1) ∧
    (s.pcF = 4 → (proj false tr).count .write = 1) ∧
    (s.pcT = 4 → (proj true tr).count .write = 1) := by
  obtain ⟨h1, h2, h3, h4, h5, h6⟩ := run_inv (inv_init tid) h
  have hp := run_proj h
  refine ⟨hp, ?_, ?_, ?_, ?_, ?_, ?_, ?_⟩
  · intro t s2 hst
    cases t <;>
      simp only [stepFn, spawned, PState.pc, PState.buf, PState.setPc, PState.setBuf,
        Option.ite_none_right_eq_some, Option.some.injEq, Bool.not_false, Bool.not_true,
        Bool.false_eq_true, Bool.true_eq_false, ite_false, ite_true] at hst ⊢
    · obtain ⟨hsp, hc, rfl⟩ := hst
      refine ⟨?_, rfl, rfl, rfl⟩
      intro hx
      exact absurd (h1.mp hx) (by omega)
    · obtain ⟨hsp, hc, rfl⟩ := hst
      refine ⟨?_, rfl, rfl, rfl⟩
      intro hx
      exact absurd (h2.mp hx) (by omega)
  · intro t s2 hst
    cases t <;>
      simp only [stepFn, spawned, PState.pc, PState.buf, PState.setPc, PState.setBuf,
        Option.ite_none_right_eq_some, Option.some.injEq, Bool.false_eq_true,
        Bool.true_eq_false, ite_false, ite_true] at hst
    · obtain ⟨hsp, hc, rfl⟩ := hst
      have hb : s.bufF = some (formatted tid false) := h3 (by omega)
      exact ⟨h1.mpr (Or.inl hc), by simp [hb]⟩
    · obtain ⟨hsp, hc, rfl⟩ := hst
      have hb : s.bufT = some (formatted tid true) := h4 (by omega)
      exact ⟨h2.mpr (Or.inl hc), by simp [hb]⟩
  · rintro ⟨hf, ht⟩
    have hx1 := h1.mpr hf
    have hx2 := h2.mpr ht
    rw [hx1] at hx2
    exact absurd (Option.some.inj hx2) (by simp)
  · intro t s2 hst
    cases t <;>
      simp only [stepFn, spawned, PState.pc, PState.setPc, PState.setBuf,
        Option.ite_none_right_eq_some, Option.some.injEq, Bool.false_eq_true,
        Bool.true_eq_false, ite_false, ite_true] at hst
    · obtain ⟨hsp, ⟨hc1, hc2⟩, rfl⟩ := hst
      exact ⟨hc2, rfl⟩
    · obtain ⟨hsp, ⟨hc1, hc2⟩, rfl⟩ := hst
      exact ⟨hc2, rfl⟩
  · exact ⟨hp.1 ▸ count_write_take _, hp.2 ▸ count_write_take _⟩
  · intro hx
    rw [hp.1, hx]
    decide
  · intro hx
    rw [hp.2, hx]
    decide

/-- Witness for C1: the demo interleaving reaches `demoFinal`, where the
lambda worker's projected actions are exactly format–acquire–write–release
and the other worker performed exactly one write. -/
theorem printMessage_spec_witness :
    run tidDemo initState demoTrace = some demoFinal ∧
    proj false demoTrace = printMessageBody.take demoFinal.pcF ∧
    (proj true demoTrace).count .write = 1 :=
  ⟨rfl, (printMessage_spec tidDemo demoTrace demoFinal rfl).1.1,
    (printMessage_spec tidDemo demoTrace demoFinal rfl).2.2.2.2.2.2.2 rfl⟩

/-- **C5.** In the threads example the main thread blocks on `join` for each
spawned worker: a `join` of worker `t` can only fire once worker `t` has
completed `printMessage`; after the first join the first worker has
completed; and once `main` is past the join loop (in particular when it
terminates) both workers have completed execution. -/
theorem main_joins_before_exit (tid : Bool → String) (tr : List Ev) (s : PState)
    (h : run tid initState tr = some s) :
    (∀ t s2, stepFn tid s (.join t) = some s2 → s.pc t = 4) ∧
    (3 ≤ s.mainPc → s.pcF = 4) ∧
    (4 ≤ s.mainPc → s.pcF = 4 ∧ s.pcT = 4) := by
  obtain ⟨h1, h2, h3, h4, h5, h6⟩ := run_inv (inv_init tid) h
  refine ⟨?_, h5, fun hx => ⟨h5 (by omega), h6 hx⟩⟩
  intro t s2 hst
  cases t <;>
    simp only [stepFn, PState.pc, Option.ite_none_right_eq_some, Option.some.injEq,
      Bool.false_eq_true, Bool.true_eq_false, ite_false, ite_true] at hst <;>
    exact hst.1.2

/-- Witness for C5: in the final state of the demo interleaving `main` has
passed both joins and indeed both workers have completed. -/
theorem main_joins_before_exit_witness :
    (4 ≤ demoFinal.mainPc) ∧ (demoFinal.pcF = 4 ∧ demoFinal.pcT = 4) :=
  ⟨by decide, (main_joins_before_exit tidDemo demoTrace demoFinal rfl).2.2 (by decide)⟩

end Threads

/-- **C2.** The variadic-template `sum` function applied to the ten integer
arguments 1 through 10 returns 55. -/
theorem variadic_sum_one_through_ten :
    Templates.sum 1 [2, 3, 4, 5, 6, 7, 8, 9, 10] = 55 := by decide

/-- **C3.** The `arity` template instantiated with the two type parameters
`int` and `float` has a `value` member equal to 2. -/
theorem arity_int_float_is_two : Templates.arity.value [Int, Float] = 2 := rfl

/-- **C4.** Running the CRTP shape example's `main` prints the line
`Drawing Circle` first and the line `Drawing Square` second, in that order. -/
theorem crtp_main_output :
    CRTP.crtpMain = ["Drawing Circle\n", "Drawing Square\n"] := rfl

/-- **C6.** No example has any error handling: under every allocation oracle
each embedded `main` either completes with its full output or is terminated
by the uncaught fault of the first failing allocation — there is no
recovered, partial or retried outcome; in particular an allocation failure
propagates out of `main` as `bad_alloc`. -/
theorem no_error_handling (alloc : Nat → Bool) :
    (sharedPtrMain alloc = .ok ["Resource acquired\n", "Resource released\n"] ∨
      sharedPtrMain alloc = .error .badAlloc) ∧
    (sharedPtrMain alloc = .error .badAlloc ↔ alloc 0 = false) ∧
    (emplaceMain alloc = .ok emplaceFullOutput ∨ emplaceMain alloc = .error .badAlloc) ∧
    (emplaceMain alloc = .error .badAlloc ↔
      (alloc 0 = false ∨ alloc 1 = false ∨ alloc 2 = false)) := by
  refine ⟨?_, ?_, ?_, ?_⟩ <;>
    rcases h0 : alloc 0 <;> rcases h1 : alloc 1 <;> rcases h2 : alloc 2 <;>
    simp [sharedPtrMain, emplaceMain, emplaceBack, emplaceFullOutput, h0, h1, h2] <;>
    decide

/-- **C7.** The (sequential) examples run with no command-line arguments and
no input: each embedded `main` is a closed constant whose entire observable
behaviour is this fixed human-readable text on the standard output stream. -/
theorem examples_only_write_stdout :
    makeExampleMain = ["Value: 10\n"] ∧
    moveSemanticsMain =
      ["Constructor\n", "Move Constructor\n", "Destructor\n", "Destructor\n",
       "Constructor\n", "Constructor\n", "Move Assignment Operator\n",
       "Destructor\n", "Destructor\n"] ∧
    uniquePtrMain = ["Resource acquired\n", "Resource released\n"] :=
  ⟨rfl, rfl, rfl⟩

/-- **C8.** `getLarger(a, b)` returns a reference to `b` whenever `a > b` is
false — in particular when `a` and `b` compare equal — so assigning through
the returned reference modifies `b` and never `a`. -/
theorem getLarger_returns_second_when_not_greater {α : Type} (gt : α → α → Bool)
    (a b v : α) (h : gt a b = false) :
    Templates.getLarger gt a b = .second ∧
    Templates.assignThrough (Templates.getLarger gt a b) v a b = (a, v) := by
  simp [Templates.getLarger, Templates.assignThrough, h]

/-- Witness for C8 at equal `int` arguments: `3 > 3` is false, so the
reference aliases the second variable and assigning `7` through it changes
only the second variable. -/
theorem getLarger_returns_second_witness :
    (fun (x y : Int) => decide (x > y)) 3 3 = false ∧
    Templates.getLarger (fun (x y : Int) => decide (x > y)) 3 3 = .second ∧
    Templates.assignThrough
      (Templates.getLarger (fun (x y : Int) => decide (x > y)) 3 3) (7 : Int) 3 3 = (3, 7) :=
  ⟨by decide,
    (getLarger_returns_second_when_not_greater (fun (x y : Int) => decide (x > y))
      3 3 7 (by decide)).1,
    (getLarger_returns_second_when_not_greater (fun (x y : Int) => decide (x > y))
      3 3 7 (by decide)).2⟩

/-- **C9.** `MovableClass`'s move constructor and move assignment operator
read and modify no object data — the class has no data members, so any two
values are identical — the moved-from object is left unchanged, and the move
assignment operator always returns a reference to its left-hand operand. -/
theorem movableClass_moves_touch_no_data :
    (∀ x y : MovableClass, x = y) ∧
    (∀ other : MovableClass, (MovableClass.moveCtor other).2 = other) ∧
    (∀ lhsId rhsId : Nat, MovableClass.moveAssignRef lhsId rhsId = lhsId) :=
  ⟨fun x y => by cases x; cases y; rfl, fun _ => rfl, fun _ _ => rfl⟩

/-- Left fold of integer addition from an arbitrary initial accumulator. -/
theorem foldl_add_from (l : List Int) (n : Int) :
    l.foldl (fun total e => total + e) n = n + l.sum := by
  induction l generalizing n with
  | nil => simp
  | cons x xs ih => simp [ih, List.sum_cons]; ring

/-- **C10.** The initializer-list `sum` function returns the exact integer
sum of the list's elements, accumulated in list order (appending one more
element adds it last), and returns 0 for the empty list. -/
theorem initializer_list_sum_spec :
    (∀ l : List Int, InitList.sum l = l.sum) ∧
    (∀ (l : List Int) (x : Int), InitList.sum (l ++ [x]) = InitList.sum l + x) ∧
    InitList.sum [] = 0 := by
  have hs : ∀ l : List Int, InitList.sum l = l.sum := fun l => by
    simpa using foldl_add_from l 0
  exact ⟨hs, fun l x => by simp [hs], rfl⟩
